import Mathlib

/-!
Verification of the RSS bot feed pipeline.

A shallow embedding, in Lean 4, of the core pipeline of the Discord RSS bot:
the content fingerprint (`Hash.createContentHash`), the two-stage filter
(`FilterManager`), the scheduler's cadence gate and per-guild processing
(`FeedScheduler`), the batched dispatcher (`FeedDispatcher`), the per-feed
item walk (`FeedManager.fetchFeedItems`) and the deduplicator
(`FeedDeduplicator`).  Pure computations are translated function by function
from the TypeScript source; stateful code is modelled by explicit state
passing, wall-clock time by explicit integer millisecond parameters, and
asynchronous external collaborators (the persistent store, the remote
classifier, the delivery channel) by explicit function-valued oracles.
JavaScript numbers that the source only ever uses as integral epoch
milliseconds are modelled as `Int`; JSON numbers as `Rat`.
-/

namespace RssBot

/-! ## Utils (src/utils/Utils.ts)

`Utils.chunkArray` slices an array into consecutive chunks of `chunkSize`.
The source loops `i` from `0` by steps of `chunkSize` and pushes
`array.slice(i, i + chunkSize)`; on `chunkSize = 0` the source loop would
not terminate, so the model returns `[]` there — every call site in the
repository uses a positive constant (5 or 64 below).  The recursion is
driven by a fuel argument initialized to the list length, which each step
(dropping `n ≥ 1` elements) keeps at least the remaining length, so the
fuel-exhausted arm is unreachable. -/

def chunkArrayGo (n : Nat) : Nat → List α → List (List α)
  | _, [] => []
  | 0, _ => []
  | fuel + 1, x :: xs =>
      if n = 0 then []
      else (x :: xs).take n :: chunkArrayGo n fuel ((x :: xs).drop n)

def chunkArray (l : List α) (n : Nat) : List (List α) :=
  chunkArrayGo n l.length l

/-! ## SHA-256 (modelling node:crypto's `createHash('sha256')`)

`Hash.createContentHash` delegates the digest to the Node.js standard
library.  To keep the embedding executable and faithful we implement
FIPS 180-4 SHA-256 here over `Nat` words reduced mod `2^32`, operating on
the UTF-8 bytes of the input string exactly as Node does. -/

def w32 : Nat := 2 ^ 32

def add32 (a b : Nat) : Nat := (a + b) % w32

def not32 (x : Nat) : Nat := x ^^^ (w32 - 1)

def rotr32 (n x : Nat) : Nat := (x / 2 ^ n) + (x % 2 ^ n) * 2 ^ (32 - n) % w32

def shaCh (x y z : Nat) : Nat := (x &&& y) ^^^ (not32 x &&& z)

def shaMaj (x y z : Nat) : Nat := (x &&& y) ^^^ (x &&& z) ^^^ (y &&& z)

def bigSigma0 (x : Nat) : Nat := rotr32 2 x ^^^ rotr32 13 x ^^^ rotr32 22 x

def bigSigma1 (x : Nat) : Nat := rotr32 6 x ^^^ rotr32 11 x ^^^ rotr32 25 x

def smallSigma0 (x : Nat) : Nat := rotr32 7 x ^^^ rotr32 18 x ^^^ (x >>> 3)

def smallSigma1 (x : Nat) : Nat := rotr32 17 x ^^^ rotr32 19 x ^^^ (x >>> 10)

/-- The eight initial hash values of SHA-256 (FIPS 180-4 §5.3.3). -/
def shaIV : List Nat :=
  [1779033703, 3144134277, 1013904242, 2773480762,
   1359893119, 2600822924, 528734635, 1541459225]

/-- The 64 round constants of SHA-256 (FIPS 180-4 §4.2.2). -/
def shaK : List Nat :=
  [1116352408, 1899447441, 3049323471, 3921009573, 961987163,
   1508970993, 2453635748, 2870763221, 3624381080, 310598401,
   607225278, 1426881987, 1925078388, 2162078206, 2614888103,
   3248222580, 3835390401, 4022224774, 264347078, 604807628,
   770255983, 1249150122, 1555081692, 1996064986, 2554220882,
   2821834349, 2952996808, 3210313671, 3336571891, 3584528711,
   113926993, 338241895, 666307205, 773529912, 1294757372,
   1396182291, 1695183700, 1986661051, 2177026350, 2456956037,
   2730485921, 2820302411, 3259730800, 3345764771, 3516065817,
   3600352804, 4094571909, 275423344, 430227734, 506948616,
   659060556, 883997877, 958139571, 1322822218, 1537002063,
   1747873779, 1955562222, 2024104815, 2227730452, 2361852424,
   2428436474, 2756734187, 3204031479, 3329325298]

/-- Big-endian bytes of a value, fixed width in bytes. -/
def beBytes : Nat → Nat → List Nat
  | 0, _ => []
  | k + 1, v => beBytes k (v / 256) ++ [v % 256]

/-- FIPS 180-4 §5.1.1 padding: append `0x80`, zeros to 56 mod 64, then the
64-bit big-endian bit length. -/
def shaPad (msg : List Nat) : List Nat :=
  let len := msg.length
  let zeros := (56 + 64 - (len + 1) % 64) % 64
  msg ++ [0x80] ++ List.replicate zeros 0 ++ beBytes 8 (len * 8)

/-- Group bytes into big-endian 32-bit words. -/
def wordsOfBytes : List Nat → List Nat
  | b0 :: b1 :: b2 :: b3 :: rest =>
      (((b0 * 256 + b1) * 256 + b2) * 256 + b3) :: wordsOfBytes rest
  | _ => []

/-- Extend the 16 message words to 64 (message schedule). -/
def extendSchedule (w : List Nat) : Nat → List Nat
  | 0 => w
  | fuel + 1 =>
      let n := w.length
      let next :=
        add32 (add32 (smallSigma1 (w.getD (n - 2) 0)) (w.getD (n - 7) 0))
          (add32 (smallSigma0 (w.getD (n - 15) 0)) (w.getD (n - 16) 0))
      extendSchedule (w ++ [next]) fuel

/-- One round of the SHA-256 compression function. -/
def shaRound (st : List Nat) (kw : Nat × Nat) : List Nat :=
  match st with
  | [a, b, c, d, e, f, g, h] =>
      let t1 := add32 (add32 (add32 h (bigSigma1 e)) (add32 (shaCh e f g) kw.1)) kw.2
      let t2 := add32 (bigSigma0 a) (shaMaj a b c)
      [add32 t1 t2, a, b, c, add32 d t1, e, f, g]
  | other => other

/-- Process one 64-byte block, updating the eight-word state. -/
def shaCompress (st : List Nat) (block : List Nat) : List Nat :=
  let w := extendSchedule (wordsOfBytes block) 48
  let out := (shaK.zip w).foldl shaRound st
  (st.zip out).map (fun p => add32 p.1 p.2)

/-- SHA-256 digest (32 bytes) of a byte string. -/
def sha256Bytes (msg : List Nat) : List Nat :=
  let final := (chunkArray (shaPad msg) 64).foldl shaCompress shaIV
  final.flatMap (beBytes 4)

def hexDigit (n : Nat) : Char :=
  if n < 10 then Char.ofNat (48 + n) else Char.ofNat (87 + n)

/-- Lowercase hex rendering of a byte list, as `digest('hex')` produces. -/
def toHex (bytes : List Nat) : String :=
  String.mk (bytes.flatMap (fun b => [hexDigit (b / 16), hexDigit (b % 16)]))

/-- The UTF-8 bytes of a string, as Node's `hash.update(string)` consumes. -/
def utf8Bytes (s : String) : List Nat :=
  s.data.flatMap (fun c => (String.utf8EncodeChar c).map (fun b => b.toNat))

/-! ## Hash (src/utils/Hash.ts) -/

/-- Source `Hash.createContentHash`: hex SHA-256 of `` `${title}|${link}` ``,
truncated to the first 16 hex characters. -/
def createContentHash (title link : String) : String :=
  String.mk ((toHex (sha256Bytes (utf8Bytes (title ++ "|" ++ link)))).toList.take 16)

/-! ## Data model (src/types/index.ts)

`Date` values are modelled as epoch milliseconds (`Int`), matching
`Date.getTime()`; JS numbers used as JSON payload values as `Rat`. -/

structure FeedItem where
  id : String
  title : String
  description : String
  category : Option String := none
  link : String
  pubDate : Int
  feedId : String
  contentHash : String
deriving DecidableEq, Repr

structure Filter where
  id : String
  keyword : String
  isActive : Bool
deriving DecidableEq, Repr

structure BotConfig where
  guildId : String
  channelId : Option String := none
  pollIntervalHours : Nat
  lastUpdated : Option Int := none
deriving DecidableEq, Repr

structure FilterResult where
  shouldPost : Bool
  reason : String
  confidence : Option Rat := none
  category : Option String := none
deriving DecidableEq, Repr

/-- Strip leading and trailing whitespace, modelling
`String.prototype.trim` (JS trims Unicode whitespace; `Char.isWhitespace`
covers the characters that occur here). -/
def trimChars (cs : List Char) : List Char :=
  ((cs.dropWhile Char.isWhitespace).reverse.dropWhile Char.isWhitespace).reverse

def jsTrim (s : String) : String := String.mk (trimChars s.toList)

/-- ASCII lowercasing, modelling `String.prototype.toLowerCase` on the
ASCII payloads at hand. -/
def jsToLower (s : String) : String := String.mk (s.toList.map Char.toLower)

/-! ## JSON values and a model of JavaScript's `JSON.parse`

`FilterManager.parseAIResponse` hands the classifier's response to
`JSON.parse`.  We embed the strict JSON grammar (RFC 8259, the grammar
`JSON.parse` accepts): values are null, booleans, numbers, strings, arrays
and objects; numbers are exact rationals.  Parsing is a fuel-indexed
recursive-descent parser over the character list; the fuel passed by
`jsParse` is proportional to the input length and suffices for every input
(each unit of nesting or list structure consumes input). -/

inductive Json where
  | null
  | bool (b : Bool)
  | num (q : Rat)
  | str (s : String)
  | arr (elems : List Json)
  | obj (fields : List (String × Json))
deriving Repr

def jsonWs (c : Char) : Bool :=
  c == ' ' || c == '\t' || c == '\n' || c == '\r'

def skipWs (cs : List Char) : List Char := cs.dropWhile jsonWs

def hexVal (c : Char) : Option Nat :=
  if '0' ≤ c ∧ c ≤ '9' then some (c.toNat - 48)
  else if 'a' ≤ c ∧ c ≤ 'f' then some (c.toNat - 87)
  else if 'A' ≤ c ∧ c ≤ 'F' then some (c.toNat - 55)
  else none

/-- Parse the body of a JSON string literal (the opening quote already
consumed), handling the escape sequences `JSON.parse` accepts.  A `\u`
escape denotes a UTF-16 code unit; units that are not scalar values fall
back to `Char.ofNat`'s default. -/
def parseJString : List Char → String → Option (String × List Char)
  | [], _ => none
  | '"' :: rest, acc => some (acc, rest)
  | '\\' :: esc, acc =>
      match esc with
      | 'u' :: h1 :: h2 :: h3 :: h4 :: rest =>
          match hexVal h1, hexVal h2, hexVal h3, hexVal h4 with
          | some a, some b, some c, some d =>
              parseJString rest (acc.push (Char.ofNat (((a * 16 + b) * 16 + c) * 16 + d)))
          | _, _, _, _ => none
      | '"' :: rest => parseJString rest (acc.push '"')
      | '\\' :: rest => parseJString rest (acc.push '\\')
      | '/' :: rest => parseJString rest (acc.push '/')
      | 'b' :: rest => parseJString rest (acc.push (Char.ofNat 8))
      | 'f' :: rest => parseJString rest (acc.push (Char.ofNat 12))
      | 'n' :: rest => parseJString rest (acc.push '\n')
      | 'r' :: rest => parseJString rest (acc.push '\r')
      | 't' :: rest => parseJString rest (acc.push '\t')
      | _ => none
  | c :: rest, acc =>
      if c.toNat < 32 then none else parseJString rest (acc.push c)

def digitsToNat (ds : List Char) : Nat :=
  ds.foldl (fun a c => a * 10 + (c.toNat - 48)) 0

/-- Finish a JSON number after its integer part: optional fraction and
exponent, yielding the exact rational value. -/
def finishNumber (neg : Bool) (intPart : Nat) (cs : List Char) :
    Option (Rat × List Char) :=
  let (mant, scale, cs1) :=
    match cs with
    | '.' :: r =>
        let ds := r.takeWhile Char.isDigit
        (intPart * 10 ^ ds.length + digitsToNat ds, ds.length,
          r.dropWhile Char.isDigit)
    | _ => (intPart, 0, cs)
  let fracOk :=
    match cs with
    | '.' :: r => !(r.takeWhile Char.isDigit).isEmpty
    | _ => true
  if !fracOk then none
  else
    let base : Rat := (mant : Rat) / ((10 : Rat) ^ scale)
    match cs1 with
    | e :: r =>
        if e == 'e' || e == 'E' then
          let (expNeg, r1) :=
            match r with
            | '-' :: r2 => (true, r2)
            | '+' :: r2 => (false, r2)
            | _ => (false, r)
          let ds := r1.takeWhile Char.isDigit
          if ds.isEmpty then none
          else
            let ex := digitsToNat ds
            let v := if expNeg then base / (10 : Rat) ^ ex else base * (10 : Rat) ^ ex
            some (if neg then -v else v, r1.dropWhile Char.isDigit)
        else some (if neg then -base else base, cs1)
    | [] => some (if neg then -base else base, cs1)

/-- Parse a JSON number (strict grammar: no leading zeros, no bare dot). -/
def parseNumber (cs : List Char) : Option (Rat × List Char) :=
  let (neg, cs1) :=
    match cs with
    | '-' :: r => (true, r)
    | _ => (false, cs)
  match cs1 with
  | '0' :: r => finishNumber neg 0 r
  | c :: _ =>
      if c.isDigit then
        finishNumber neg (digitsToNat (cs1.takeWhile Char.isDigit))
          (cs1.dropWhile Char.isDigit)
      else none
  | [] => none

mutual

def parseValue : Nat → List Char → Option (Json × List Char)
  | 0, _ => none
  | fuel + 1, cs =>
      match cs with
      | 'n' :: 'u' :: 'l' :: 'l' :: rest => some (Json.null, rest)
      | 't' :: 'r' :: 'u' :: 'e' :: rest => some (Json.bool true, rest)
      | 'f' :: 'a' :: 'l' :: 's' :: 'e' :: rest => some (Json.bool false, rest)
      | '"' :: rest =>
          match parseJString rest "" with
          | some (s, r) => some (Json.str s, r)
          | none => none
      | '[' :: rest =>
          match skipWs rest with
          | ']' :: r2 => some (Json.arr [], r2)
          | r1 =>
              match parseElems fuel r1 with
              | some (vs, r2) => some (Json.arr vs, r2)
              | none => none
      | '{' :: rest =>
          match skipWs rest with
          | '}' :: r2 => some (Json.obj [], r2)
          | r1 =>
              match parseMembers fuel r1 with
              | some (fs, r2) => some (Json.obj fs, r2)
              | none => none
      | c :: _ =>
          if c == '-' || c.isDigit then
            match parseNumber cs with
            | some (q, r) => some (Json.num q, r)
            | none => none
          else none
      | [] => none

def parseElems : Nat → List Char → Option (List Json × List Char)
  | 0, _ => none
  | fuel + 1, cs =>
      match parseValue fuel cs with
      | none => none
      | some (v, rest) =>
          match skipWs rest with
          | ',' :: r2 =>
              match parseElems fuel (skipWs r2) with
              | some (vs, r3) => some (v :: vs, r3)
              | none => none
          | ']' :: r2 => some ([v], r2)
          | _ => none

def parseMembers : Nat → List Char → Option (List (String × Json) × List Char)
  | 0, _ => none
  | fuel + 1, cs =>
      match cs with
      | '"' :: rest =>
          match parseJString rest "" with
          | none => none
          | some (key, r1) =>
              match skipWs r1 with
              | ':' :: r2 =>
                  match parseValue fuel (skipWs r2) with
                  | none => none
                  | some (v, r3) =>
                      match skipWs r3 with
                      | ',' :: r4 =>
                          match parseMembers fuel (skipWs r4) with
                          | some (fs, r5) => some ((key, v) :: fs, r5)
                          | none => none
                      | '}' :: r4 => some ([(key, v)], r4)
                      | _ => none
              | _ => none
      | _ => none

end

/-- Model of `JSON.parse`: parse one value, allowing surrounding
whitespace, demanding the whole input be consumed; `none` models the
`SyntaxError` that `JSON.parse` throws. -/
def jsParse (s : String) : Option Json :=
  match parseValue (4 * s.length + 8) (skipWs s.toList) with
  | some (v, rest) => if (skipWs rest).isEmpty then some v else none
  | none => none

/-- Property lookup on a parsed JSON value, as JS property access sees it:
objects yield their property (duplicate keys: the last occurrence wins, as
`JSON.parse` builds the object), every other non-null value yields
`undefined`, modelled as `none`.  (Access on `null` throws in JS; callers
model that path separately.) -/
def jGet (j : Json) (key : String) : Option Json :=
  match j with
  | Json.obj fields =>
      (fields.foldl (fun acc kv => if kv.1 = key then some kv.2 else acc) none)
  | _ => none

/-! ## FilterManager (src/Filter/Manager.ts) -/

/-- Drop a leading token, compared case-insensitively (ASCII), modelling
`.replace(/^```json/i, '')`. -/
def dropCIHead (s pat : String) : String :=
  if (s.toList.take pat.length).map Char.toLower = pat.toList then
    String.mk (s.toList.drop pat.length)
  else s

/-- Drop a leading token, modelling `.replace(/^```/, '')`. -/
def dropHead (s pat : String) : String :=
  if s.toList.take pat.length = pat.toList then
    String.mk (s.toList.drop pat.length)
  else s

/-- Drop a trailing token, modelling `.replace(/```$/, '')`. -/
def dropTail (s pat : String) : String :=
  let cs := s.toList
  let n := pat.length
  if n ≤ cs.length ∧ cs.drop (cs.length - n) = pat.toList then
    String.mk (cs.take (cs.length - n))
  else s

/-- The code-fence stripping `parseAIResponse` applies before `JSON.parse`:
trim, strip a leading ```` ```json ```` (case-insensitive), a leading
```` ``` ````, a trailing ```` ``` ````, trim again. -/
def stripFences (response : String) : String :=
  jsTrim (dropTail (dropHead (dropCIHead (jsTrim response) "```json") "```") "```")

/-- The result `parseAIResponse` returns from its `catch` branch. -/
def parseFailResult : FilterResult :=
  { shouldPost := true, reason := "AI response parsing error - defaulting to allow",
    confidence := some 0, category := some "Unknown" }

/-- Coercion `typeof parsed.decision === 'boolean' ? parsed.decision : false`. -/
def decisionOf (parsed : Json) : Bool :=
  match jGet parsed "decision" with
  | some (Json.bool b) => b
  | _ => false

/-- Coercion `typeof parsed.confidence === 'number' && 0 <= c && c <= 100 ? c : 50`. -/
def confidenceOf (parsed : Json) : Rat :=
  match jGet parsed "confidence" with
  | some (Json.num q) => if 0 ≤ q ∧ q ≤ 100 then q else 50
  | _ => 50

/-- Coercion `typeof parsed.reason === 'string' && parsed.reason.trim().length > 0 ?
parsed.reason.trim() : 'AI analysis completed'` -/
def reasonOf (parsed : Json) : String :=
  match jGet parsed "reason" with
  | some (Json.str s) =>
      if 0 < (jsTrim s).length then jsTrim s else "AI analysis completed"
  | _ => "AI analysis completed"

/-- Coercion `typeof parsed.category === 'string' && ... : 'Unknown'`. -/
def categoryOf (parsed : Json) : String :=
  match jGet parsed "category" with
  | some (Json.str s) => if 0 < (jsTrim s).length then jsTrim s else "Unknown"
  | _ => "Unknown"

/-- Source `FilterManager.parseAIResponse`: strip code fences, `JSON.parse`, then
coerce each field.  A response that fails to parse — and a response that
parses to `null`, on which the source's property accesses throw a
`TypeError` — lands in the `catch` branch, `parseFailResult`. -/
def parseAIResponse (response : String) : FilterResult :=
  match jsParse (stripFences response) with
  | none => parseFailResult
  | some Json.null => parseFailResult
  | some parsed =>
      { shouldPost := decisionOf parsed,
        reason := "AI: " ++ reasonOf parsed,
        confidence := some (confidenceOf parsed),
        category := some (categoryOf parsed) }

/-- Source `FilterManager.stageBFilter`, parameterized by the remote classifier's
response (`this.genAi.prompt` returns text or `null`; the call itself and
the filter list only shape the outbound prompt, not the parsing of the
response). -/
def stageBFilter (aiResponse : Option String) : FilterResult :=
  match aiResponse with
  | none =>
      { shouldPost := true, reason := "AI returned no response - defaulting to allow",
        confidence := some 0 }
  | some r => parseAIResponse r

/-- The keyword normalization `FilterManager.addFilter` applies before
storing: `keyword.toLowerCase().trim()`. -/
def normalizeKeyword (k : String) : String := jsTrim (jsToLower k)

/-- Source `Storage.getAllFilters` returns only rows `WHERE is_active = 1`; this is
the filter list `stageAFilter` iterates. -/
def activeFilters (filters : List Filter) : List Filter :=
  filters.filter (fun f => f.isActive)

/-- JS `String.prototype.includes`: contiguous substring test. -/
def containsSubstr (s pat : String) : Bool :=
  decide (pat.toList <:+: s.toList)

/-- Content string `` `${item.title} ${item.description}`.toLowerCase() ``. -/
def itemContent (item : FeedItem) : String :=
  jsToLower (item.title ++ " " ++ item.description)

/-- The keyword loop of `stageAFilter`: first active filter whose keyword
occurs in the lowercased content rejects the item. -/
def stageAScan (content : String) : List Filter → FilterResult
  | [] => { shouldPost := true, reason := "Passed Stage A filtering" }
  | f :: rest =>
      if containsSubstr content f.keyword then
        { shouldPost := false,
          reason := "Excluded by keyword filter: \"" ++ f.keyword ++ "\"" }
      else stageAScan content rest

/-- Source `FilterManager.stageAFilter`, parameterized by the stored filter rows. -/
def stageAFilter (filters : List Filter) (item : FeedItem) : FilterResult :=
  stageAScan (itemContent item) (activeFilters filters)

/-- One run of `shouldPostItem`, recording whether the Stage B remote
classification call was issued. -/
structure PipelineRun where
  result : FilterResult
  stageBCalled : Bool
deriving DecidableEq, Repr

/-- Source `FilterManager.shouldPostItem`: Stage A, then — only if it passed —
Stage B, whose result is final. -/
def shouldPostItem (filters : List Filter) (ai : Option String) (item : FeedItem) :
    PipelineRun :=
  let stageAResult := stageAFilter filters item
  if stageAResult.shouldPost then
    { result := stageBFilter ai, stageBCalled := true }
  else
    { result := stageAResult, stageBCalled := false }

/-! ## FeedScheduler (src/Feed/Scheduler.ts) -/

/-- JS truthiness of an optional string field: absent and `''` are falsy. -/
def truthyStr : Option String → Bool
  | some s => !(s == "")
  | none => false

/-- Source `FeedScheduler.shouldUpdateGuild` at wall-clock `now` (epoch ms): a
missing `lastUpdated` reads as epoch 0 (`new Date(0)`), the interval is
`(guild.pollIntervalHours || 1)` hours in ms, and the guild is due when
`now - lastUpdate >= intervalMs`. -/
def shouldUpdateGuild (now : Int) (guild : BotConfig) : Bool :=
  let lastUpdate : Int := guild.lastUpdated.getD 0
  let intervalMs : Int :=
    ((if guild.pollIntervalHours = 0 then 1 else guild.pollIntervalHours : Nat) : Int) * 3600000
  decide (intervalMs ≤ now - lastUpdate)

/-- Source `FeedScheduler.getActiveGuilds`: keep configs with a truthy
`channelId`. -/
def getActiveGuilds (guilds : List BotConfig) : List BotConfig :=
  guilds.filter (fun g => truthyStr g.channelId)

/-- The due set of a cycle: `guilds.filter((guild) =>
this.shouldUpdateGuild(guild))` over the active guilds. -/
def dueGuilds (now : Int) (guilds : List BotConfig) : List BotConfig :=
  (getActiveGuilds guilds).filter (shouldUpdateGuild now)

/-- The externally visible persistence/dispatch actions of
`processGuildFeed`, in program order.  `markSeen` is the
`storage.addFeedItem(item)` call (which inserts the item's `content_hash`
into the durable `feed_items` table backing `isFeedItemSeen`);
`dispatch` is the single `feedDispatcher.dispatchFeed` call. -/
inductive SchedEvent where
  | markSeen (item : FeedItem)
  | dispatch (items : List FeedItem)
deriving DecidableEq, Repr

/-- The per-item filter loop of `processGuildFeed`: each item is filtered
(`verdict` models the outcome of `filterQueue.filterItem`; an item whose
filtering throws or times out is simply skipped, which for the emitted
events coincides with a rejection); accepted items are appended to
`filteredItems` and durably marked seen on the spot. Returns the events of
the loop and the accepted list. -/
def filterLoop (verdict : FeedItem → FilterResult) :
    List FeedItem → List SchedEvent × List FeedItem
  | [] => ([], [])
  | item :: rest =>
      let r := verdict item
      let (evs, acc) := filterLoop verdict rest
      if r.shouldPost then (SchedEvent.markSeen item :: evs, item :: acc)
      else (evs, acc)

/-- Source `FeedScheduler.processGuildFeed` as its trace of persistence/dispatch
events: the filter loop's events, then — only when something was
accepted — one dispatch of the accepted list. -/
def processGuildFeedTrace (verdict : FeedItem → FilterResult)
    (allItems : List FeedItem) : List SchedEvent :=
  let (evs, filteredItems) := filterLoop verdict allItems
  if filteredItems.isEmpty then evs
  else evs ++ [SchedEvent.dispatch filteredItems]

/-! ## FeedDispatcher (src/Feed/Manager.ts, class FeedDispatcher)

`send item attempt` models one `discordClient.sendFeedToChannel` call for
`item` on retry number `attempt` (true = delivered).  The dispatcher's
`discordClient.isClientReady()` precondition is assumed by the caller per
§4.5 of the spec; pacing sleeps have no observable effect here. -/

def maxItemsPerBatch : Nat := 5

def deliveryMaxRetries : Nat := 3

/-- The retry loop of `postSingleItem`: up to `fuel` attempts, returning
whether any attempt succeeded (the source returns on the first success and
throws after exhausting retries). -/
def postAttempts (send : FeedItem → Nat → Bool) (item : FeedItem) :
    Nat → Nat → Bool
  | _, 0 => false
  | attempt, fuel + 1 =>
      if send item attempt then true else postAttempts send item (attempt + 1) fuel

/-- Source `FeedDispatcher.postSingleItem`: 3 attempts; `true` = delivered,
`false` = the exhausted-retries throw (caught per item by `dispatchFeed`). -/
def postSingleItem (send : FeedItem → Nat → Bool) (item : FeedItem) : Bool :=
  postAttempts send item 0 deliveryMaxRetries

structure DispatchReport where
  totalPosted : Nat
  totalFailed : Nat
  delivered : List FeedItem
deriving DecidableEq, Repr

/-- The per-item body of `dispatchFeed`'s batch loop: a successful post
increments `totalPosted`, a per-item failure is caught and counted in
`totalFailed` without aborting the loop. -/
def dispatchStep (send : FeedItem → Nat → Bool) (rep : DispatchReport)
    (item : FeedItem) : DispatchReport :=
  if postSingleItem send item then
    { totalPosted := rep.totalPosted + 1, totalFailed := rep.totalFailed,
      delivered := rep.delivered ++ [item] }
  else
    { rep with totalFailed := rep.totalFailed + 1 }

/-- Source `FeedDispatcher.dispatchFeed`: split into batches of 5 and deliver each
batch's items in order. -/
def dispatchFeed (send : FeedItem → Nat → Bool) (feedItems : List FeedItem) :
    DispatchReport :=
  let batches := chunkArray feedItems maxItemsPerBatch
  batches.foldl (fun rep batch => batch.foldl (dispatchStep send) rep)
    { totalPosted := 0, totalFailed := 0, delivered := [] }

/-! ## FeedManager (src/Feed/Manager.ts, class FeedManager)

A raw feedparser item; absent fields are the empty string, which is also
what makes them falsy in the source's truthiness tests.  Date handling
(`parseDate` on `pubDate || isoDate` and the `toDateString` comparison
against today) goes through wall-clock and locale APIs, so it is modelled
by the oracles `isToday` (the `toDateString` equality) and `parseDateMs`
(the parsed timestamp), and `Hash.generateId` (which reads `Date.now()`
and `Math.random()`) by the oracle `genId`. -/

structure RawItem where
  title : String := ""
  summary : String := ""
  description : String := ""
  link : String := ""
  guid : String := ""
deriving DecidableEq, Repr

structure RSSFeed where
  id : String
  url : String := ""
  name : String := ""
  lastSeenId : Option String := none
  isActive : Bool := true
deriving DecidableEq, Repr

/-- Validity test `items.filter((item) => item.link && item.title)`. -/
def validRaw (it : RawItem) : Bool :=
  !(it.link == "") && !(it.title == "")

/-- Source `FeedManager.generateItemId`: hash of the guid when truthy, else of
title and link. -/
def generateItemId (it : RawItem) : String :=
  if !(it.guid == "") then createContentHash it.guid ""
  else createContentHash it.title it.link

/-- Boundary test `feed.lastSeenId && this.generateItemId(item) === feed.lastSeenId`. -/
def markerHit (lastSeenId : Option String) (it : RawItem) : Bool :=
  match lastSeenId with
  | some m => if m == "" then false else generateItemId it == m
  | none => false

/-- Strip `<...>` tag spans, modelling `.replace(/<[^>]*>/g, '')`: each
match runs from a `<` to the next `>`; a `<` with no later `>` is left in
place (the regex cannot match it, nor anything after it). -/
def removeTags : List Char → List Char
  | [] => []
  | '<' :: rest =>
      if rest.any (fun c => c = '>') then
        removeTags ((rest.dropWhile (fun c => c ≠ '>')).drop 1)
      else '<' :: rest
  | c :: rest => c :: removeTags rest
termination_by cs => cs.length
decreasing_by
  all_goals simp only [List.length_cons]
  case _ =>
    have h1 : (rest.dropWhile (fun c => c ≠ '>')).length ≤ rest.length :=
      (List.dropWhile_sublist _).length_le
    have h2 : ((rest.dropWhile (fun c => c ≠ '>')).drop 1).length ≤
        (rest.dropWhile (fun c => c ≠ '>')).length := by
      simp [List.length_drop]
    omega
  case _ => omega

/-- Global non-overlapping left-to-right literal replacement, modelling
`.replace(/pat/g, rep)` for the fixed literal entity patterns. -/
def replaceAll (pat rep : List Char) : List Char → List Char
  | [] => []
  | c :: rest =>
      if hp : pat.isEmpty then c :: rest
      else if (c :: rest).take pat.length = pat then
        rep ++ replaceAll pat rep ((c :: rest).drop pat.length)
      else c :: replaceAll pat rep rest
termination_by cs => cs.length
decreasing_by
  case _ =>
    have hp1 : 0 < pat.length := by
      cases pat with
      | nil => simp [List.isEmpty] at hp
      | cons a t => simp
    simp only [List.length_drop, List.length_cons]
    omega
  case _ => simp

/-- Collapse whitespace runs to single spaces, modelling
`.replace(/\s+/g, ' ')`. -/
def collapseWs : List Char → List Char
  | [] => []
  | c :: rest =>
      if c.isWhitespace then ' ' :: collapseWs (rest.dropWhile Char.isWhitespace)
      else c :: collapseWs rest
termination_by cs => cs.length
decreasing_by
  case _ =>
    have h1 : (rest.dropWhile Char.isWhitespace).length ≤ rest.length :=
      (List.dropWhile_sublist _).length_le
    simp only [List.length_cons]
    omega
  case _ => simp

/-- Source `FeedManager.sanitizeText`: strip tags, decode the fixed entities,
normalize whitespace, trim, and cap at 2000 characters. -/
def sanitizeText (text : String) : String :=
  if text == "" then ""
  else
    let s1 := removeTags text.toList
    let s2 := replaceAll "&nbsp;".toList " ".toList s1
    let s3 := replaceAll "&amp;".toList "&".toList s2
    let s4 := replaceAll "&lt;".toList "<".toList s3
    let s5 := replaceAll "&gt;".toList ">".toList s4
    let s6 := replaceAll "&quot;".toList "\"".toList s5
    let s7 := replaceAll "&#39;".toList "'".toList s6
    String.mk ((trimChars (collapseWs s7)).take 2000)

/-- Number of new items kept per fetch (`processedCount >= 5` break). -/
def maxItemsPerFetch : Nat := 5

/-- The per-item walk of `fetchFeedItems` over the valid items, carrying
`processedCount`: stop at the `lastSeenId` boundary, skip items not
published today, skip items already in the durable seen-store, keep the
rest up to the cap. Returns the raw items that are kept, in walk order. -/
def walkRaws (isToday : RawItem → Bool) (seenInStore : String → Bool)
    (lastSeenId : Option String) : List RawItem → Nat → List RawItem
  | [], _ => []
  | it :: rest, cnt =>
      if markerHit lastSeenId it then []
      else if !isToday it then walkRaws isToday seenInStore lastSeenId rest cnt
      else if seenInStore (createContentHash it.title it.link) then
        walkRaws isToday seenInStore lastSeenId rest cnt
      else if maxItemsPerFetch ≤ cnt + 1 then [it]
      else it :: walkRaws isToday seenInStore lastSeenId rest (cnt + 1)

/-- Build the `FeedItem` record `fetchFeedItems` pushes for a kept raw
item. -/
def toFeedItem (genId : RawItem → String) (parseDateMs : RawItem → Int)
    (feedId : String) (it : RawItem) : FeedItem :=
  { id := genId it,
    title := sanitizeText it.title,
    description := sanitizeText (if !(it.summary == "") then it.summary else it.description),
    link := it.link,
    pubDate := parseDateMs it,
    feedId := feedId,
    contentHash := createContentHash it.title it.link }

/-- Source `FeedManager.fetchFeedItems` on one successfully parsed provider
response `items` (in provider order): filter to items with a truthy link
and title, walk them, and build the returned `FeedItem`s. -/
def fetchFeedItems (genId : RawItem → String) (parseDateMs : RawItem → Int)
    (isToday : RawItem → Bool) (seenInStore : String → Bool)
    (feed : RSSFeed) (items : List RawItem) : List FeedItem :=
  let validItems := items.filter validRaw
  (walkRaws isToday seenInStore feed.lastSeenId validItems 0).map
    (toFeedItem genId parseDateMs feed.id)

/-! ## FeedDeduplicator (src/Feed/Deduplicator.ts)

The in-memory `Set` of recent fingerprints is a list in insertion order
(JS `Set` iteration order); the persistent store query
`storage.isFeedItemSeen` is the oracle `seenInStore` (`isDuplicate` never
writes the store). -/

def maxRecentHashes : Nat := 10000

def cleanupIntervalMs : Int := 24 * 60 * 60 * 1000

structure DedupState where
  recentHashes : List String
  lastCleanup : Int
deriving DecidableEq, Repr

/-- Source `FeedDeduplicator.addToRecentCache`: `Set.add` (no-op when present,
else appended at the end of the iteration order), then, over capacity,
evict the oldest `floor(maxRecentHashes * 0.1)` entries. -/
def addToRecentCache (cache : List String) (h : String) : List String :=
  let added := if h ∈ cache then cache else cache ++ [h]
  if maxRecentHashes < added.length then added.drop (maxRecentHashes / 10)
  else added

/-- Source `FeedDeduplicator.performPeriodicCleanup`: after more than 24h since
`lastCleanup`, clear the cache and reset the clock (the asynchronous
`storage.cleanup()` it also fires has no effect on this state). -/
def performPeriodicCleanup (now : Int) (st : DedupState) : DedupState :=
  if cleanupIntervalMs < now - st.lastCleanup then
    { recentHashes := [], lastCleanup := now }
  else st

/-- Source `FeedDeduplicator.isDuplicate` at wall-clock `now`: memory-cache hit,
else durable-store hit (backfilling the cache), else record the
fingerprint in memory, run the periodic cleanup, and report "new". -/
def isDuplicate (seenInStore : String → Bool) (now : Int) (st : DedupState)
    (item : FeedItem) : Bool × DedupState :=
  if item.contentHash ∈ st.recentHashes then (true, st)
  else if seenInStore item.contentHash then
    (true, { st with recentHashes := addToRecentCache st.recentHashes item.contentHash })
  else
    let st1 := { st with recentHashes := addToRecentCache st.recentHashes item.contentHash }
    (false, performPeriodicCleanup now st1)

/-- Source `FeedDeduplicator.filterDuplicates`: keep the items `isDuplicate`
reports as new, threading the cache state left to right.  (An item whose
check throws is kept as well; the model's checks are total.) -/
def filterDuplicates (seenInStore : String → Bool) (now : Int) :
    DedupState → List FeedItem → List FeedItem × DedupState
  | st, [] => ([], st)
  | st, item :: rest =>
      let r := isDuplicate seenInStore now st item
      let rec2 := filterDuplicates seenInStore now r.2 rest
      (if r.1 then rec2.1 else item :: rec2.1, rec2.2)

/-! ## Claim C9 — fingerprint determinism -/

/-- C9: the fingerprint is a pure deterministic function of the
(title, link) pair — any two computations over identical title and link
inputs yield the identical fingerprint.  `createContentHash` is a closed
function of its two string arguments alone (the SHA-256 of
`title ++ "|" ++ link`), so it cannot read arrival time or any other
process state, and the same equation holds in every run. -/
theorem createContentHash_deterministic (t1 l1 t2 l2 : String)
    (ht : t1 = t2) (hl : l1 = l2) :
    createContentHash t1 l1 = createContentHash t2 l2 := by
  rw [ht, hl]

/-- C9 witness: the determinism theorem at a concrete (title, link). -/
theorem createContentHash_deterministic_witness :
    ("Launch" : String) = "Launch" ∧ ("https://example.com/a" : String) = "https://example.com/a" ∧
    createContentHash "Launch" "https://example.com/a" =
      createContentHash "Launch" "https://example.com/a" :=
  ⟨rfl, rfl,
    createContentHash_deterministic "Launch" "https://example.com/a"
      "Launch" "https://example.com/a" rfl rfl⟩

/-! ## Claim C5 — Stage B fails open on an unparseable response -/

/-- C5: for every classifier response string that fails to parse as JSON,
Stage B returns a decision with `shouldPost = true` and confidence 0. -/
theorem stageB_fail_open_on_unparseable (resp : String)
    (h : jsParse (stripFences resp) = none) :
    (stageBFilter (some resp)).shouldPost = true ∧
    (stageBFilter (some resp)).confidence = some 0 := by
  simp [stageBFilter, parseAIResponse, h, parseFailResult]

/-- C5 witness: the spec's own example response `"not json"`. -/
theorem stageB_fail_open_on_unparseable_witness :
    jsParse (stripFences "not json") = none ∧
    (stageBFilter (some "not json")).shouldPost = true ∧
    (stageBFilter (some "not json")).confidence = some 0 :=
  ⟨by rfl, stageB_fail_open_on_unparseable "not json" (by rfl)⟩

/-! ## Claim C1 — parsed responses with a missing or non-boolean decision

The source's `parseAIResponse` coerces the `decision` field with
`typeof parsed.decision === 'boolean' ? parsed.decision : false`: when a
response parses as JSON (to anything but `null`) and its `decision` field
is absent or not a boolean, the parsed `FilterResult` REJECTS the item.
Only a response that fails `JSON.parse` (or parses to `null`, whose
property access throws) takes the fail-open default.  The claim as stated
(fail-open, `shouldPost = true`) is therefore false on the code. -/

/-- C1 counterexample: the response `"{}"` parses as structured JSON, its
`decision` field is absent, and Stage B's parsed result has
`shouldPost = false` — fail-closed, refuting the claimed fail-open
default. -/
theorem stageB_missing_decision_fail_closed_counterexample :
    jsParse (stripFences "\x7b\x7d") = some (Json.obj []) ∧
    (stageBFilter (some "\x7b\x7d")).shouldPost = false :=
  ⟨by rfl, by rfl⟩

/-- Characterization of `parseAIResponse` on a response that parses to a
non-null JSON value. -/
theorem parseAIResponse_of_parsed (resp : String) (j : Json)
    (hp : jsParse (stripFences resp) = some j) (hnull : j ≠ Json.null) :
    parseAIResponse resp =
      { shouldPost := decisionOf j, reason := "AI: " ++ reasonOf j,
        confidence := some (confidenceOf j), category := some (categoryOf j) } := by
  unfold parseAIResponse
  rw [hp]
  cases j <;> first | rfl | exact absurd rfl hnull

/-- C1 (amended): for every classifier response string that parses as
structured JSON (other than bare `null`) whose `decision` field is absent
or not a boolean, Stage B's parsed `FilterResult` has `shouldPost = false`
(the decision defaults to reject), not the fail-open accept the spec
states. -/
theorem stageB_missing_decision_fail_closed (resp : String) (j : Json)
    (hp : jsParse (stripFences resp) = some j) (hnull : j ≠ Json.null)
    (hdec : ∀ b : Bool, jGet j "decision" ≠ some (Json.bool b)) :
    (stageBFilter (some resp)).shouldPost = false := by
  have hd : decisionOf j = false := by
    unfold decisionOf
    cases hj : jGet j "decision" with
    | none => rfl
    | some v =>
      cases v with
      | bool b => exact absurd hj (hdec b)
      | null => rfl
      | num q => rfl
      | str s => rfl
      | arr xs => rfl
      | obj fs => rfl
  show (parseAIResponse resp).shouldPost = false
  rw [parseAIResponse_of_parsed resp j hp hnull]
  exact hd

/-- C1 (amended) witness: the response `"[]"` parses to an array, has no
`decision` property, and is rejected. -/
theorem stageB_missing_decision_fail_closed_witness :
    jsParse (stripFences "[]") = some (Json.arr []) ∧
    (stageBFilter (some "[]")).shouldPost = false :=
  ⟨by rfl,
    stageB_missing_decision_fail_closed "[]" (Json.arr []) (by rfl)
      (fun h => Json.noConfusion h) (fun _ h => by revert h; rw [show jGet (Json.arr []) "decision" = none from rfl]; exact fun h => Option.noConfusion h)⟩

/-! ## Claim C4 — Stage A short-circuit -/

/-- If some filter in the scanned list matches the content, the scan
rejects. -/
theorem stageAScan_rejects (content : String) (fs : List Filter) (f : Filter)
    (hmem : f ∈ fs) (hmatch : containsSubstr content f.keyword = true) :
    (stageAScan content fs).shouldPost = false := by
  induction fs with
  | nil => cases hmem
  | cons g rest ih =>
    by_cases hg : containsSubstr content g.keyword = true
    · simp [stageAScan, hg]
    · cases List.mem_cons.mp hmem with
      | inl heq => subst heq; exact absurd hmatch hg
      | inr hr => simpa [stageAScan, hg] using ih hr

/-- C4: when an active exclusion keyword (normalized as `addFilter` stores
it: lowercased and trimmed) occurs as a substring of the lowercased
title+description text, `shouldPostItem` returns a rejecting decision from
Stage A, and the Stage B remote classification call is not issued —
whatever the classifier would have answered (`ai` is arbitrary). -/
theorem shouldPostItem_stageA_shortcircuit
    (filters : List Filter) (ai : Option String) (item : FeedItem)
    (k : String) (f : Filter)
    (hmem : f ∈ filters) (hact : f.isActive = true)
    (hkw : f.keyword = normalizeKeyword k)
    (hsub : containsSubstr (itemContent item) (normalizeKeyword k) = true) :
    (shouldPostItem filters ai item).result.shouldPost = false ∧
    (shouldPostItem filters ai item).stageBCalled = false := by
  have hmem2 : f ∈ activeFilters filters := by
    simp only [activeFilters, List.mem_filter]
    exact ⟨hmem, hact⟩
  have hrej : (stageAFilter filters item).shouldPost = false :=
    stageAScan_rejects (itemContent item) (activeFilters filters) f hmem2
      (by rw [hkw]; exact hsub)
  constructor <;> simp [shouldPostItem, hrej]

def sportsFilter : Filter :=
  { id := "f1", keyword := "sports", isActive := true }

def sportsItem : FeedItem :=
  { id := "i1", title := "Big Sports news", description := "a report",
    link := "https://example.com/a", pubDate := 0, feedId := "feed1",
    contentHash := "h1" }

/-- C4 witness: the spec's example — keyword "sports", item text containing
"Sports" — rejected by Stage A with no remote call. -/
theorem shouldPostItem_stageA_shortcircuit_witness :
    sportsFilter ∈ [sportsFilter] ∧ sportsFilter.isActive = true ∧
    sportsFilter.keyword = normalizeKeyword "sports" ∧
    containsSubstr (itemContent sportsItem) (normalizeKeyword "sports") = true ∧
    (shouldPostItem [sportsFilter] (some "\x7b\"decision\": true\x7d") sportsItem).result.shouldPost = false ∧
    (shouldPostItem [sportsFilter] (some "\x7b\"decision\": true\x7d") sportsItem).stageBCalled = false := by
  refine ⟨by decide, by rfl, by rfl, by rfl, ?_⟩
  exact shouldPostItem_stageA_shortcircuit [sportsFilter]
    (some "\x7b\"decision\": true\x7d") sportsItem "sports" sportsFilter
    (by decide) (by rfl) (by rfl) (by rfl)

/-! ## Claim C2 — cadence gating of the due set -/

/-- C2: a destination (with a configured channel, an interval in the spec's
`1..168` domain, and a recorded `lastUpdated` instant) is in the cycle's
due set exactly when `now - lastUpdated` is at least `pollIntervalHours`
(converted to milliseconds). -/
theorem dueGuilds_iff (now : Int) (guilds : List BotConfig) (g : BotConfig)
    (t : Int) (hmem : g ∈ getActiveGuilds guilds)
    (hpoll : 1 ≤ g.pollIntervalHours) (hlast : g.lastUpdated = some t) :
    g ∈ dueGuilds now guilds ↔
      (g.pollIntervalHours : Int) * 3600000 ≤ now - t := by
  have h0 : ¬ g.pollIntervalHours = 0 := by omega
  simp only [dueGuilds, List.mem_filter, hmem, true_and, shouldUpdateGuild,
    hlast, Option.getD_some, h0, if_false, decide_eq_true_eq]

def guildNinety : BotConfig :=
  { guildId := "A", channelId := some "chanA", pollIntervalHours := 2,
    lastUpdated := some (-5400000) }

def guildOneThirty : BotConfig :=
  { guildId := "B", channelId := some "chanB", pollIntervalHours := 2,
    lastUpdated := some (-7800000) }

/-- C2 witness: at `now = 0`, with `pollIntervalHours = 2`, the guild last
updated 90 minutes ago is excluded from the due set and the guild last
updated 130 minutes ago is included. -/
theorem dueGuilds_iff_witness :
    guildOneThirty ∈ dueGuilds 0 [guildNinety, guildOneThirty] ∧
    guildNinety ∉ dueGuilds 0 [guildNinety, guildOneThirty] := by
  constructor
  · exact (dueGuilds_iff 0 [guildNinety, guildOneThirty] guildOneThirty
      (-7800000) (by decide) (by decide) (by rfl)).mpr (by decide)
  · intro hmem
    exact absurd ((dueGuilds_iff 0 [guildNinety, guildOneThirty] guildNinety
      (-5400000) (by decide) (by decide) (by rfl)).mp hmem) (by decide)

/-! ## Claim C3 — mark seen before dispatch -/

/-- The filter loop emits exactly one `markSeen` per accepted item, in
order, and returns the accepted items. -/
theorem filterLoop_eq (v : FeedItem → FilterResult) (items : List FeedItem) :
    filterLoop v items =
      ((items.filter (fun i => (v i).shouldPost)).map SchedEvent.markSeen,
       items.filter (fun i => (v i).shouldPost)) := by
  induction items with
  | nil => rfl
  | cons i rest ih =>
    by_cases h : (v i).shouldPost <;>
      simp [filterLoop, ih, h, List.filter_cons]

/-- C3: in a destination's cycle, every item handed to the dispatcher was
durably marked seen (its `storage.addFeedItem` persistence event) at a
strictly earlier position of the cycle's event trace than the dispatch
call itself — no item is dispatched without having first been marked
seen. -/
theorem processGuildFeed_markseen_before_dispatch
    (v : FeedItem → FilterResult) (items d : List FeedItem) (x : FeedItem)
    (hd : SchedEvent.dispatch d ∈ processGuildFeedTrace v items)
    (hx : x ∈ d) :
    ∃ j k : Nat, j < k ∧
      (processGuildFeedTrace v items).get? j = some (SchedEvent.markSeen x) ∧
      (processGuildFeedTrace v items).get? k = some (SchedEvent.dispatch d) := by
  set A := items.filter (fun i => (v i).shouldPost) with hA
  have htrace : processGuildFeedTrace v items =
      if A.isEmpty then A.map SchedEvent.markSeen
      else A.map SchedEvent.markSeen ++ [SchedEvent.dispatch A] := by
    simp [processGuildFeedTrace, filterLoop_eq, hA]
  by_cases hempty : A.isEmpty
  · rw [htrace, if_pos hempty] at hd
    obtain ⟨a, -, heq⟩ := List.mem_map.mp hd
    exact SchedEvent.noConfusion heq
  · rw [htrace, if_neg hempty] at hd ⊢
    cases List.mem_append.mp hd with
    | inl hin =>
      obtain ⟨a, -, heq⟩ := List.mem_map.mp hin
      exact SchedEvent.noConfusion heq
    | inr hin =>
      have heq := List.mem_singleton.mp hin
      injection heq with hda
      rw [hda] at hx
      obtain ⟨n, hng⟩ := List.mem_iff_get?.mp hx
      have hn : n < A.length := by
        rcases List.get?_eq_some.mp hng with ⟨hlt, -⟩
        exact hlt
      rw [hda]
      refine ⟨n, (A.map SchedEvent.markSeen).length, ?_, ?_, ?_⟩
      · simpa using hn
      · rw [List.get?_append (by simpa using hn), List.get?_map, hng]
        rfl
      · exact List.get?_concat_length _ _

def acceptAllVerdict : FeedItem → FilterResult :=
  fun _ => { shouldPost := true, reason := "ok" }

def traceItem : FeedItem :=
  { id := "t1", title := "hello", description := "world", link := "l",
    pubDate := 0, feedId := "f", contentHash := "c1" }

/-- C3 witness: a one-item cycle whose item is accepted; its mark-seen
event precedes the dispatch event. -/
theorem processGuildFeed_markseen_before_dispatch_witness :
    SchedEvent.dispatch [traceItem] ∈ processGuildFeedTrace acceptAllVerdict [traceItem] ∧
    traceItem ∈ [traceItem] ∧
    ∃ j k : Nat, j < k ∧
      (processGuildFeedTrace acceptAllVerdict [traceItem]).get? j =
        some (SchedEvent.markSeen traceItem) ∧
      (processGuildFeedTrace acceptAllVerdict [traceItem]).get? k =
        some (SchedEvent.dispatch [traceItem]) :=
  ⟨by decide, by decide,
    processGuildFeed_markseen_before_dispatch acceptAllVerdict [traceItem]
      [traceItem] traceItem (by decide) (by decide)⟩

/-! ## Claim C6 — dispatch isolates per-item failure -/

/-- With positive chunk size and enough fuel, rejoining the chunks gives
back the list. -/
theorem chunkArrayGo_flatten (n : Nat) (hn : n ≠ 0) :
    ∀ (fuel : Nat) (l : List α), l.length ≤ fuel →
      (chunkArrayGo n fuel l).flatten = l := by
  intro fuel
  induction fuel with
  | zero =>
    intro l hl
    have : l = [] := List.eq_nil_of_length_eq_zero (Nat.le_zero.mp hl)
    subst this
    rfl
  | succ f ih =>
    intro l hl
    cases l with
    | nil => rfl
    | cons x xs =>
      have hlen : ((x :: xs).drop n).length ≤ f := by
        simp only [List.length_drop, List.length_cons] at *
        omega
      simp only [chunkArrayGo, hn, if_false, List.flatten_cons, ih _ hlen,
        List.take_append_drop]

/-- Lemma: `chunkArray` partitions: the concatenation of the batches is the
original list. -/
theorem chunkArray_flatten (l : List α) (n : Nat) (hn : n ≠ 0) :
    (chunkArray l n).flatten = l :=
  chunkArrayGo_flatten n hn l.length l le_rfl

theorem foldl_dispatchStep_posted (send : FeedItem → Nat → Bool) :
    ∀ (items : List FeedItem) (rep : DispatchReport),
      (items.foldl (dispatchStep send) rep).totalPosted =
        rep.totalPosted + (items.filter (fun i => postSingleItem send i)).length := by
  intro items
  induction items with
  | nil => intro rep; simp
  | cons i rest ih =>
    intro rep
    by_cases h : postSingleItem send i <;>
      simp [dispatchStep, h, ih, List.filter_cons] <;> omega

theorem foldl_dispatchStep_failed (send : FeedItem → Nat → Bool) :
    ∀ (items : List FeedItem) (rep : DispatchReport),
      (items.foldl (dispatchStep send) rep).totalFailed =
        rep.totalFailed + (items.filter (fun i => !(postSingleItem send i))).length := by
  intro items
  induction items with
  | nil => intro rep; simp
  | cons i rest ih =>
    intro rep
    by_cases h : postSingleItem send i <;>
      simp [dispatchStep, h, ih, List.filter_cons] <;> omega

theorem foldl_dispatchStep_delivered (send : FeedItem → Nat → Bool) :
    ∀ (items : List FeedItem) (rep : DispatchReport),
      (items.foldl (dispatchStep send) rep).delivered =
        rep.delivered ++ items.filter (fun i => postSingleItem send i) := by
  intro items
  induction items with
  | nil => intro rep; simp
  | cons i rest ih =>
    intro rep
    by_cases h : postSingleItem send i <;>
      simp [dispatchStep, h, ih, List.filter_cons]

/-- Folding the per-item step over the batches is folding it over the
items: the batch structure only paces delivery. -/
theorem dispatchFeed_eq_foldl (send : FeedItem → Nat → Bool)
    (feedItems : List FeedItem) :
    dispatchFeed send feedItems =
      feedItems.foldl (dispatchStep send)
        { totalPosted := 0, totalFailed := 0, delivered := [] } := by
  unfold dispatchFeed
  conv_rhs =>
    rw [← chunkArray_flatten feedItems maxItemsPerBatch (by decide),
      List.foldl_flatten]

def mkSeqItem (j : Nat) : FeedItem :=
  { id := toString j, title := "item", description := "", link := "https://example.com",
    pubDate := 0, feedId := "f", contentHash := "c" }

def sevenItems : List FeedItem := (List.range 7).map (fun j => mkSeqItem (j + 1))

/-- A delivery channel on which every attempt for item #4 fails and every
other delivery succeeds at once. -/
def failOn4Send : FeedItem → Nat → Bool := fun i _ => !(i.id == "4")

/-- C6: `dispatchFeed` never aborts on a per-item delivery failure: it
posts exactly the items whose (up to 3) delivery attempts succeed, counts
every other item as one failure, and processes every item
(`posted + failed = total`).  In particular, on 7 items where only item #4
permanently fails, it reports 6 posted and 1 failed, and items #5–7 are
still delivered. -/
theorem dispatchFeed_partial_failure_isolated (send : FeedItem → Nat → Bool)
    (feedItems : List FeedItem) :
    (dispatchFeed send feedItems).totalPosted =
      (feedItems.filter (fun i => postSingleItem send i)).length ∧
    (dispatchFeed send feedItems).totalFailed =
      (feedItems.filter (fun i => !(postSingleItem send i))).length ∧
    (dispatchFeed send feedItems).totalPosted +
      (dispatchFeed send feedItems).totalFailed = feedItems.length ∧
    (dispatchFeed send feedItems).delivered =
      feedItems.filter (fun i => postSingleItem send i) ∧
    (dispatchFeed failOn4Send sevenItems).totalPosted = 6 ∧
    (dispatchFeed failOn4Send sevenItems).totalFailed = 1 ∧
    (dispatchFeed failOn4Send sevenItems).delivered =
      sevenItems.take 3 ++ sevenItems.drop 4 := by
  refine ⟨?_, ?_, ?_, ?_, by decide, by decide, by decide⟩
  · rw [dispatchFeed_eq_foldl, foldl_dispatchStep_posted]
    simp
  · rw [dispatchFeed_eq_foldl, foldl_dispatchStep_failed]
    simp
  · rw [dispatchFeed_eq_foldl, foldl_dispatchStep_posted,
      foldl_dispatchStep_failed]
    simpa using (List.length_eq_length_filter_add
      (l := feedItems) (fun i => postSingleItem send i)).symm
  · rw [dispatchFeed_eq_foldl, foldl_dispatchStep_delivered]
    rfl

/-! ## Claim C7 — the poller's boundary stop and item cap -/

/-- Every item the walk keeps comes from the maximal marker-free leading
segment of the walked list: the walk halts at the first item whose
identity equals the `lastSeenId` marker, so nothing at or past the
boundary is kept. -/
theorem walkRaws_sublist_takeWhile (iT : RawItem → Bool) (sS : String → Bool)
    (m : Option String) :
    ∀ (raws : List RawItem) (cnt : Nat),
      (walkRaws iT sS m raws cnt).Sublist
        (raws.takeWhile (fun it => !(markerHit m it))) := by
  intro raws
  induction raws with
  | nil => intro cnt; simp [walkRaws]
  | cons it rest ih =>
    intro cnt
    by_cases hm : markerHit m it = true
    · simp [walkRaws, hm]
    · have hTW : (it :: rest).takeWhile (fun x => !(markerHit m x)) =
          it :: rest.takeWhile (fun x => !(markerHit m x)) := by
        simp [List.takeWhile_cons, hm]
      rw [hTW]
      by_cases ht : iT it = true
      · by_cases hs : sS (createContentHash it.title it.link) = true
        · simpa [walkRaws, hm, ht, hs] using (ih cnt).cons it
        · by_cases hc : maxItemsPerFetch ≤ cnt + 1
          · simp only [walkRaws, hm, ht, hs, hc]
            simp only [Bool.not_true, Bool.false_eq_true, if_false, if_true]
            exact List.Sublist.cons₂ it (List.nil_sublist _)
          · simp only [walkRaws, hm, ht, hs, hc]
            simp only [Bool.not_true, Bool.false_eq_true, if_false, if_true]
            exact List.Sublist.cons₂ it (ih (cnt + 1))
      · simpa [walkRaws, hm, ht] using (ih cnt).cons it

/-- The walk keeps at most `maxItemsPerFetch - cnt` items (and at most one
once the cap is within reach). -/
theorem walkRaws_length (iT : RawItem → Bool) (sS : String → Bool)
    (m : Option String) :
    ∀ (raws : List RawItem) (cnt : Nat),
      (walkRaws iT sS m raws cnt).length + cnt ≤ maxItemsPerFetch ∨
      (walkRaws iT sS m raws cnt).length ≤ 1 := by
  intro raws
  induction raws with
  | nil => intro cnt; simp [walkRaws]
  | cons it rest ih =>
    intro cnt
    by_cases hm : markerHit m it = true
    · simp [walkRaws, hm]
    · by_cases ht : iT it = true
      · by_cases hs : sS (createContentHash it.title it.link) = true
        · simpa [walkRaws, hm, ht, hs] using ih cnt
        · by_cases hc : maxItemsPerFetch ≤ cnt + 1
          · simp [walkRaws, hm, ht, hs, hc]
          · simp only [walkRaws, hm, ht, hs, hc]
            simp only [Bool.not_true, Bool.false_eq_true, if_false, if_true,
              List.length_cons]
            cases ih (cnt + 1) with
            | inl h => left; omega
            | inr h =>
              left
              simp only [maxItemsPerFetch] at *
              omega
      · simpa [walkRaws, hm, ht] using ih cnt

/-- C7: on a fetched provider response, `fetchFeedItems` (i) keeps only
items with a truthy link and title, (ii) walks them in provider order —
the kept raws are an order-preserving subsequence of the valid items —
(iii) keeps nothing at or beyond the first item whose identity matches the
source's `lastSeenId` marker, (iv) keeps at most 5 items, and (v) returns
exactly the kept raws transformed into `FeedItem`s, in walk order. -/
theorem fetchFeedItems_boundary_stop (genId : RawItem → String)
    (parseDateMs : RawItem → Int) (isToday : RawItem → Bool)
    (seenInStore : String → Bool) (feed : RSSFeed) (items : List RawItem) :
    (walkRaws isToday seenInStore feed.lastSeenId (items.filter validRaw) 0).Sublist
      ((items.filter validRaw).takeWhile (fun it => !(markerHit feed.lastSeenId it))) ∧
    (walkRaws isToday seenInStore feed.lastSeenId (items.filter validRaw) 0).Sublist
      (items.filter validRaw) ∧
    (walkRaws isToday seenInStore feed.lastSeenId (items.filter validRaw) 0).length ≤
      maxItemsPerFetch ∧
    (∀ it ∈ walkRaws isToday seenInStore feed.lastSeenId (items.filter validRaw) 0,
      validRaw it = true) ∧
    fetchFeedItems genId parseDateMs isToday seenInStore feed items =
      (walkRaws isToday seenInStore feed.lastSeenId (items.filter validRaw) 0).map
        (toFeedItem genId parseDateMs feed.id) := by
  have h1 := walkRaws_sublist_takeWhile isToday seenInStore feed.lastSeenId
    (items.filter validRaw) 0
  have h2 := h1.trans (List.takeWhile_sublist _)
  refine ⟨h1, h2, ?_, ?_, rfl⟩
  · cases walkRaws_length isToday seenInStore feed.lastSeenId
      (items.filter validRaw) 0 with
    | inl h => omega
    | inr h => simp only [maxItemsPerFetch]; omega
  · intro it hit
    exact List.of_mem_filter (h2.subset hit)

/-! ## Claim C8 — dedup idempotence

The source's `isDuplicate` never writes the persistent store (the durable
mark comes later, from the scheduler's `addFeedItem`), and its "new item"
path runs `performPeriodicCleanup` AFTER recording the fingerprint in the
in-memory cache: when the 24-hour cleanup fires during the first call it
wipes the fingerprint that was just recorded, and an immediately repeated
check reports `false` again.  The claimed `false` then `true` therefore
holds only when the periodic cleanup does not trigger during the first
call. -/

/-- Adding a new fingerprint leaves it in the cache even when the
over-capacity eviction of the oldest tenth fires (the new entry is at the
end of the insertion order). -/
theorem mem_addToRecentCache_of_not_mem (cache : List String) (h : String)
    (hnm : h ∉ cache) : h ∈ addToRecentCache cache h := by
  unfold addToRecentCache
  simp only [hnm, if_false, List.length_append, List.length_cons,
    List.length_nil, Nat.zero_add]
  by_cases hlen : maxRecentHashes < cache.length + 1
  · have h1000 : maxRecentHashes / 10 ≤ cache.length := by
      simp only [maxRecentHashes] at hlen ⊢
      omega
    simp only [hlen, if_true, List.drop_append_of_le_length h1000]
    simp
  · simp [hlen]

/-- C8 counterexample: a deduplicator whose last cleanup lies more than 24
hours back, and a fresh item never marked in the persistent store.  The
first `isDuplicate` call returns `false` but its own periodic cleanup
clears the just-recorded fingerprint, so the second call also returns
`false` — not the claimed `true`. -/
theorem isDuplicate_twice_counterexample :
    ((fun _ => false) : String → Bool) "abcd1234" = false ∧
    ("abcd1234" : String) ∉ (DedupState.mk [] 0).recentHashes ∧
    (isDuplicate (fun _ => false) 86400001 (DedupState.mk [] 0)
      (FeedItem.mk "d1" "x" "" none "l" 0 "f" "abcd1234")).1 = false ∧
    (isDuplicate (fun _ => false) 86400001
      (isDuplicate (fun _ => false) 86400001 (DedupState.mk [] 0)
        (FeedItem.mk "d1" "x" "" none "l" 0 "f" "abcd1234")).2
      (FeedItem.mk "d1" "x" "" none "l" 0 "f" "abcd1234")).1 = false := by
  decide

/-- C8 (amended): two sequential `isDuplicate` calls on the same item
yield `false` then `true` when the item's fingerprint is in neither the
in-memory cache nor the persistent store — provided the 24-hour periodic
cleanup does not trigger during the first call — and `true` both times
whenever the item is already durably marked. -/
theorem isDuplicate_twice (seenInStore : String → Bool) (now1 now2 : Int)
    (st : DedupState) (item : FeedItem) :
    (seenInStore item.contentHash = false →
      item.contentHash ∉ st.recentHashes →
      now1 - st.lastCleanup ≤ cleanupIntervalMs →
      (isDuplicate seenInStore now1 st item).1 = false ∧
      (isDuplicate seenInStore now2
        (isDuplicate seenInStore now1 st item).2 item).1 = true) ∧
    (seenInStore item.contentHash = true →
      (isDuplicate seenInStore now1 st item).1 = true ∧
      (isDuplicate seenInStore now2
        (isDuplicate seenInStore now1 st item).2 item).1 = true) := by
  constructor
  · intro hseen hnm hcl
    have e1 : isDuplicate seenInStore now1 st item =
        (false, { recentHashes := addToRecentCache st.recentHashes item.contentHash,
                  lastCleanup := st.lastCleanup }) := by
      unfold isDuplicate performPeriodicCleanup
      simp [hnm, hseen, if_neg (not_lt.mpr hcl)]
    rw [e1]
    refine ⟨rfl, ?_⟩
    have hmem := mem_addToRecentCache_of_not_mem st.recentHashes item.contentHash hnm
    simp [isDuplicate, hmem]
  · intro hseen
    by_cases hmem : item.contentHash ∈ st.recentHashes
    · have e1 : isDuplicate seenInStore now1 st item = (true, st) := by
        simp [isDuplicate, hmem]
      rw [e1]
      exact ⟨rfl, by simp [isDuplicate, hmem]⟩
    · have e1 : isDuplicate seenInStore now1 st item =
          (true, { recentHashes := addToRecentCache st.recentHashes item.contentHash,
                   lastCleanup := st.lastCleanup }) := by
        simp [isDuplicate, hmem, hseen]
      rw [e1]
      have hmem2 := mem_addToRecentCache_of_not_mem st.recentHashes item.contentHash hmem
      exact ⟨rfl, by simp [isDuplicate, hmem2]⟩

/-- C8 (amended) witness: a fresh deduplicator well inside the cleanup
window reports `false` then `true` on a twice-submitted fresh item. -/
theorem isDuplicate_twice_witness :
    (isDuplicate (fun _ => false) 1000 (DedupState.mk [] 0)
      (FeedItem.mk "w1" "x" "" none "l" 0 "f" "ffff0000")).1 = false ∧
    (isDuplicate (fun _ => false) 2000
      (isDuplicate (fun _ => false) 1000 (DedupState.mk [] 0)
        (FeedItem.mk "w1" "x" "" none "l" 0 "f" "ffff0000")).2
      (FeedItem.mk "w1" "x" "" none "l" 0 "f" "ffff0000")).1 = true :=
  (isDuplicate_twice (fun _ => false) 1000 2000 (DedupState.mk [] 0)
    (FeedItem.mk "w1" "x" "" none "l" 0 "f" "ffff0000")).1
    (by rfl) (by decide) (by decide)

/-! ## Claim C10 — `filterDuplicates` returns an order-preserving
subsequence -/

/-- C10: the list `filterDuplicates` returns is a sublist of its input:
every returned item occurs in the input, unmodified; the relative input
order is preserved; and no input occurrence is returned more than once
(the count of each item can only shrink). -/
theorem filterDuplicates_sublist (seenInStore : String → Bool) (now : Int)
    (st : DedupState) (items : List FeedItem) :
    (filterDuplicates seenInStore now st items).1.Sublist items ∧
    (∀ x ∈ (filterDuplicates seenInStore now st items).1, x ∈ items) ∧
    (∀ x, (filterDuplicates seenInStore now st items).1.count x ≤
      items.count x) := by
  have hsub : ∀ (st : DedupState) (items : List FeedItem),
      (filterDuplicates seenInStore now st items).1.Sublist items := by
    intro st items
    induction items generalizing st with
    | nil => simp [filterDuplicates]
    | cons i rest ih =>
      simp only [filterDuplicates]
      by_cases h : (isDuplicate seenInStore now st i).1 = true
      · simpa [h] using ((ih _)).cons i
      · simp only [Bool.not_eq_true] at h
        simpa [h] using List.Sublist.cons₂ i (ih _)
  exact ⟨hsub st items, fun x hx => (hsub st items).subset hx,
    fun x => (hsub st items).count_le x⟩

end RssBot
